import Mathlib

/-!
Verification of the AI_Bot chat/voice gateway against its specification.

The definitions below are shallow embeddings of the Python source:
* `services.py` : `JsonFlattener.flatten_dfs` / `flatten_bfs`,
  `GeminiVoiceService._add_to_cache` / `generate_speech` / `convert_pcm_to_wav`,
  `GeminiClient.generate_response` / `smart_summarize`;
* `client.py`   : `ChatbotWebSocketServer.handle_chat_message` / `handle_voice_request`.

Python dicts are modelled as association lists with insertion-order semantics
(`dinsert` overwrites in place, otherwise appends at the back), bytes as
`List Nat` (each entry one byte), raised exceptions as `Except` values, and
the generative backend as an oracle function from prompt to outcome.
-/

/-! ## JSON values and Python-dict association lists -/

/-- A JSON value as consumed by `JsonFlattener`: either a scalar leaf or a
nested object.  Leaf payloads are modelled as integers; the flattening code
never inspects them. -/
inductive JsonVal where
  | scalar (v : Int) : JsonVal
  | obj (fields : List (String × JsonVal)) : JsonVal
deriving Repr

mutual
/-- Computable structural weight of a JSON value (termination measure). -/
def jweight : JsonVal → Nat
  | .scalar _ => 1
  | .obj fields => 1 + fweight fields
/-- Computable structural weight of a field list (termination measure). -/
def fweight : List (String × JsonVal) → Nat
  | [] => 1
  | (_, v) :: rest => 1 + jweight v + fweight rest
end

/-- Python `d[k] = v` on an insertion-ordered dict: overwrite in place if the
key is present, otherwise append at the back. -/
def dinsert {α : Type} (k : String) (v : α) : List (String × α) → List (String × α)
  | [] => [(k, v)]
  | kv :: rest => if kv.1 = k then (k, v) :: rest else kv :: dinsert k v rest

/-- Python `base.update(other)`: apply `dinsert` for each pair of `other`
in order. -/
def dmerge {α : Type} (base other : List (String × α)) : List (String × α) :=
  other.foldl (fun acc kv => dinsert kv.1 kv.2 acc) base

/-- `f"{parent_key}{sep}{k}" if parent_key else k` from both flatteners. -/
def joinKey (sep parent k : String) : String :=
  if parent = "" then k else parent ++ sep ++ k

/-! ## JsonFlattener (services.py, lines 441-464) -/

/-- Loop body of `flatten_dfs`: iterate the fields of one dict, threading the
`items` accumulator; a scalar writes `items[new_key] = v`, a nested object
merges the recursively flattened sub-dict via `items.update(...)`. -/
def flatten_dfs_aux (sep parent : String) :
    List (String × JsonVal) → List (String × Int) → List (String × Int)
  | [], items => items
  | (k, JsonVal.scalar v) :: rest, items =>
      flatten_dfs_aux sep parent rest (dinsert (joinKey sep parent k) v items)
  | (k, JsonVal.obj sub) :: rest, items =>
      flatten_dfs_aux sep parent rest
        (dmerge items (flatten_dfs_aux sep (joinKey sep parent k) sub []))
termination_by l _ => fweight l
decreasing_by all_goals (simp [fweight, jweight]; try omega)

/-- `JsonFlattener.flatten_dfs(data, parent_key, sep)`. -/
def flatten_dfs (data : List (String × JsonVal)) (parent sep : String) :
    List (String × Int) :=
  flatten_dfs_aux sep parent data []

/-- One pass of the inner `for key, value in current_dict.items()` loop of
`flatten_bfs`: returns the sub-dicts appended to the queue (in field order)
and the updated `flattened` accumulator. -/
def bfs_step (sep parent : String) :
    List (String × JsonVal) → List (String × Int) →
    List (List (String × JsonVal) × String) × List (String × Int)
  | [], flat => ([], flat)
  | (k, JsonVal.scalar v) :: rest, flat =>
      bfs_step sep parent rest (dinsert (joinKey sep parent k) v flat)
  | (k, JsonVal.obj sub) :: rest, flat =>
      let r := bfs_step sep parent rest flat
      ((sub, joinKey sep parent k) :: r.1, r.2)

/-- Combined weight of the dicts held in a BFS queue (termination measure). -/
def queueWeight : List (List (String × JsonVal) × String) → Nat
  | [] => 0
  | (d, _) :: q => fweight d + queueWeight q

theorem queueWeight_append (a b : List (List (String × JsonVal) × String)) :
    queueWeight (a ++ b) = queueWeight a + queueWeight b := by
  induction a with
  | nil => simp [queueWeight]
  | cons hd tl ih =>
      obtain ⟨d, p⟩ := hd
      simp [queueWeight, ih]
      omega

theorem queueWeight_bfs_step (sep parent : String) :
    ∀ (d : List (String × JsonVal)) (flat : List (String × Int)),
      queueWeight (bfs_step sep parent d flat).1 < fweight d := by
  intro d
  induction d with
  | nil => intro flat; simp [bfs_step, queueWeight, fweight]
  | cons hd rest ih =>
      intro flat
      obtain ⟨k, v⟩ := hd
      cases v with
      | scalar x =>
          have := ih (dinsert (joinKey sep parent k) x flat)
          simp only [bfs_step, fweight, jweight] at *
          omega
      | obj sub =>
          have := ih flat
          simp only [bfs_step, queueWeight, fweight, jweight] at *
          omega

/-- The `while queue:` loop of `flatten_bfs`. -/
def flatten_bfs_aux (sep : String) :
    List (List (String × JsonVal) × String) → List (String × Int) →
    List (String × Int)
  | [], flat => flat
  | (d, parent) :: queue, flat =>
      let r := bfs_step sep parent d flat
      flatten_bfs_aux sep (queue ++ r.1) r.2
termination_by q _ => queueWeight q
decreasing_by
  simp_wf
  rw [queueWeight_append]
  have := queueWeight_bfs_step sep parent d flat
  simp [queueWeight]
  omega

/-- `JsonFlattener.flatten_bfs(data, sep)`. -/
def flatten_bfs (data : List (String × JsonVal)) (sep : String) :
    List (String × Int) :=
  flatten_bfs_aux sep [(data, "")] []

/-- Specification-side enumeration of the leaves of a dict in depth-first
field order, each paired with its joined dotted path. -/
def leavesAux (sep parent : String) : List (String × JsonVal) → List (String × Int)
  | [] => []
  | (k, JsonVal.scalar v) :: rest =>
      (joinKey sep parent k, v) :: leavesAux sep parent rest
  | (k, JsonVal.obj sub) :: rest =>
      leavesAux sep (joinKey sep parent k) sub ++ leavesAux sep parent rest
termination_by l => fweight l
decreasing_by all_goals (simp [fweight, jweight]; try omega)

/-- Depth-first leaf enumeration of each dict in a BFS queue, in queue order. -/
def qLeaves (sep : String) : List (List (String × JsonVal) × String) → List (String × Int)
  | [] => []
  | (d, p) :: q => leavesAux sep p d ++ qLeaves sep q

theorem qLeaves_append (sep : String) (a b : List (List (String × JsonVal) × String)) :
    qLeaves sep (a ++ b) = qLeaves sep a ++ qLeaves sep b := by
  induction a with
  | nil => simp [qLeaves]
  | cons hd tl ih =>
      obtain ⟨d, p⟩ := hd
      simp [qLeaves, ih]

/-! ### Association-list lemmas -/

theorem dinsert_of_not_mem {α : Type} {k : String} {v : α} :
    ∀ {l : List (String × α)}, k ∉ l.map Prod.fst → dinsert k v l = l ++ [(k, v)]
  | [], _ => rfl
  | kv :: rest, h => by
      have hk : kv.1 ≠ k := by
        intro he
        exact h (by simp [he.symm])
      have hrest : k ∉ rest.map Prod.fst := by
        intro hm
        exact h (by simp [hm])
      simp [dinsert, hk, dinsert_of_not_mem hrest]

theorem dmerge_of_nodup {α : Type} :
    ∀ (other base : List (String × α)),
      ((base.map Prod.fst) ++ (other.map Prod.fst)).Nodup →
      dmerge base other = base ++ other
  | [], base, _ => by simp [dmerge]
  | (k, v) :: rest, base, h => by
      rw [List.map_cons] at h
      have hdisj := (List.nodup_append.mp h).2.2
      have hk : k ∉ base.map Prod.fst := fun hm => hdisj hm (List.mem_cons_self _ _)
      have hstep : dinsert k v base = base ++ [(k, v)] := dinsert_of_not_mem hk
      have h2 : (((base ++ [(k, v)]).map Prod.fst) ++ (rest.map Prod.fst)).Nodup := by
        simp only [List.map_append, List.map_cons, List.map_nil] at h ⊢
        simpa [List.append_assoc] using h
      calc dmerge base ((k, v) :: rest)
          = dmerge (dinsert k v base) rest := rfl
        _ = dmerge (base ++ [(k, v)]) rest := by rw [hstep]
        _ = (base ++ [(k, v)]) ++ rest := dmerge_of_nodup rest (base ++ [(k, v)]) h2
        _ = base ++ (k, v) :: rest := by simp

theorem lookup_eq_none_of_not_mem {α : Type} {k : String} :
    ∀ {l : List (String × α)}, k ∉ l.map Prod.fst → l.lookup k = none := by
  intro l
  induction l with
  | nil => intro _; rfl
  | cons kv rest ih =>
      obtain ⟨k1, v1⟩ := kv
      intro h
      have hk : k ≠ k1 := fun he => h (by simp [he])
      have hb : (k == k1) = false := beq_eq_false_iff_ne.mpr hk
      have hrest : k ∉ rest.map Prod.fst := fun hm => h (by simp [hm])
      simp [List.lookup, hb, ih hrest]

theorem lookup_eq_some_of_mem {α : Type} {k : String} {v : α} :
    ∀ {l : List (String × α)}, (l.map Prod.fst).Nodup → (k, v) ∈ l →
      l.lookup k = some v := by
  intro l
  induction l with
  | nil => intro _ hm; simp at hm
  | cons kv rest ih =>
      obtain ⟨k1, v1⟩ := kv
      intro hnd hm
      rw [List.map_cons, List.nodup_cons] at hnd
      rcases List.mem_cons.mp hm with he | hm2
      · have hb : (k == k1) = true := beq_iff_eq.mpr (congrArg Prod.fst he)
        have hv : v1 = v := (congrArg Prod.snd he).symm
        simp [List.lookup, hb, hv]
      · have hk : k ≠ k1 := by
          intro he
          exact hnd.1 (he ▸ List.mem_map.mpr ⟨(k, v), hm2, rfl⟩)
        have hb : (k == k1) = false := beq_eq_false_iff_ne.mpr hk
        simp [List.lookup, hb, ih hnd.2 hm2]

theorem mem_of_lookup_eq_some {α : Type} {k : String} {v : α} :
    ∀ {l : List (String × α)}, l.lookup k = some v → (k, v) ∈ l := by
  intro l
  induction l with
  | nil => intro h; simp [List.lookup] at h
  | cons kv rest ih =>
      obtain ⟨k1, v1⟩ := kv
      intro h
      by_cases hk : k = k1
      · have hb : (k == k1) = true := beq_iff_eq.mpr hk
        simp [List.lookup, hb] at h
        simp [hk, h]
      · have hb : (k == k1) = false := beq_eq_false_iff_ne.mpr hk
        simp [List.lookup, hb] at h
        exact List.mem_cons_of_mem _ (ih h)

/-- Lookup in an association list with distinct keys is invariant under
permutation of the entries. -/
theorem lookup_eq_of_perm {α : Type} {l1 l2 : List (String × α)}
    (hp : l1.Perm l2) (hnd : (l1.map Prod.fst).Nodup) (k : String) :
    l1.lookup k = l2.lookup k := by
  have hnd2 : (l2.map Prod.fst).Nodup := ((hp.map Prod.fst).nodup_iff).mp hnd
  cases h : l1.lookup k with
  | none =>
      have hk : k ∉ l1.map Prod.fst := by
        intro hm
        rcases List.mem_map.mp hm with ⟨⟨a, b⟩, hab, hfst⟩
        cases hfst
        rw [lookup_eq_some_of_mem hnd hab] at h
        cases h
      have : k ∉ l2.map Prod.fst := fun hm => hk ((hp.map Prod.fst).mem_iff.mpr hm)
      rw [lookup_eq_none_of_not_mem this]
  | some v =>
      have hm : (k, v) ∈ l2 := hp.mem_iff.mp (mem_of_lookup_eq_some h)
      rw [lookup_eq_some_of_mem hnd2 hm]

/-! ### flatten_dfs produces exactly the depth-first leaf enumeration -/

theorem flatten_dfs_aux_eq_leaves (sep : String) :
    ∀ (parent : String) (d : List (String × JsonVal)) (items : List (String × Int)),
      ((items.map Prod.fst) ++ ((leavesAux sep parent d).map Prod.fst)).Nodup →
      flatten_dfs_aux sep parent d items = items ++ leavesAux sep parent d := by
  intro parent d items
  induction parent, d, items using flatten_dfs_aux.induct sep with
  | case1 parent items =>
      intro _
      simp [flatten_dfs_aux, leavesAux]
  | case2 parent k v rest items ih =>
      intro h
      rw [leavesAux, List.map_cons] at h
      have hk : joinKey sep parent k ∉ items.map Prod.fst := by
        have hdisj := (List.nodup_append.mp h).2.2
        exact fun hm => hdisj hm (List.mem_cons_self _ _)
      have hstep : dinsert (joinKey sep parent k) v items
          = items ++ [(joinKey sep parent k, v)] := dinsert_of_not_mem hk
      have h2 : (((items ++ [(joinKey sep parent k, v)]).map Prod.fst)
          ++ ((leavesAux sep parent rest).map Prod.fst)).Nodup := by
        simp only [List.map_append, List.map_cons, List.map_nil] at h ⊢
        simpa [List.append_assoc] using h
      rw [hstep] at ih
      simp only [flatten_dfs_aux]
      rw [hstep, ih h2, leavesAux]
      simp
  | case3 parent k sub rest items ih1 ih2 =>
      intro h
      rw [leavesAux, List.map_append] at h
      have hsub : (([] : List (String × Int)).map Prod.fst
          ++ ((leavesAux sep (joinKey sep parent k) sub).map Prod.fst)).Nodup := by
        simp only [List.map_nil, List.nil_append]
        have hs : ((leavesAux sep (joinKey sep parent k) sub).map Prod.fst).Sublist
            ((items.map Prod.fst) ++ (((leavesAux sep (joinKey sep parent k) sub).map Prod.fst)
              ++ ((leavesAux sep parent rest).map Prod.fst))) := by
          exact ((List.sublist_append_left _ _).trans (List.sublist_append_right _ _))
        exact h.sublist hs
      have hinner : flatten_dfs_aux sep (joinKey sep parent k) sub []
          = leavesAux sep (joinKey sep parent k) sub := by
        have := ih1 hsub
        simpa using this
      have hmergeNd : ((items.map Prod.fst)
          ++ ((leavesAux sep (joinKey sep parent k) sub).map Prod.fst)).Nodup := by
        have hs : ((items.map Prod.fst)
            ++ ((leavesAux sep (joinKey sep parent k) sub).map Prod.fst)).Sublist
            ((items.map Prod.fst) ++ (((leavesAux sep (joinKey sep parent k) sub).map Prod.fst)
              ++ ((leavesAux sep parent rest).map Prod.fst))) := by
          exact (List.sublist_append_left _ _).append_left _
        exact h.sublist hs
      have hmerge : dmerge items (flatten_dfs_aux sep (joinKey sep parent k) sub [])
          = items ++ leavesAux sep (joinKey sep parent k) sub := by
        rw [hinner]
        exact dmerge_of_nodup _ _ hmergeNd
      have h2 : (((items ++ leavesAux sep (joinKey sep parent k) sub).map Prod.fst)
          ++ ((leavesAux sep parent rest).map Prod.fst)).Nodup := by
        simp only [List.map_append] at h ⊢
        simpa [List.append_assoc] using h
      rw [hmerge] at ih2
      simp only [flatten_dfs_aux]
      rw [hmerge, ih2 h2, leavesAux]
      simp

/-! ### flatten_bfs produces a permutation of the same enumeration -/

theorem bfs_step_perm (sep parent : String) :
    ∀ (d : List (String × JsonVal)) (flat : List (String × Int)),
      ((flat ++ leavesAux sep parent d).map Prod.fst).Nodup →
      ((bfs_step sep parent d flat).2 ++ qLeaves sep (bfs_step sep parent d flat).1).Perm
        (flat ++ leavesAux sep parent d) := by
  intro d
  induction d with
  | nil =>
      intro flat _
      simp [bfs_step, qLeaves, leavesAux]
  | cons hd rest ih =>
      intro flat h
      obtain ⟨k, v⟩ := hd
      cases v with
      | scalar x =>
          rw [leavesAux] at h ⊢
          have hk : joinKey sep parent k ∉ flat.map Prod.fst := by
            rw [List.map_append, List.map_cons] at h
            have hdisj := (List.nodup_append.mp h).2.2
            exact fun hm => hdisj hm (List.mem_cons_self _ _)
          have hstep : dinsert (joinKey sep parent k) x flat
              = flat ++ [(joinKey sep parent k, x)] := dinsert_of_not_mem hk
          have hEq : (flat ++ [(joinKey sep parent k, x)]) ++ leavesAux sep parent rest
              = flat ++ (joinKey sep parent k, x) :: leavesAux sep parent rest := by
            simp
          have h2 : (((flat ++ [(joinKey sep parent k, x)])
              ++ leavesAux sep parent rest).map Prod.fst).Nodup := by
            rw [hEq]; exact h
          have := ih (flat ++ [(joinKey sep parent k, x)]) h2
          rw [hEq] at this
          simp only [bfs_step, hstep]
          exact this
      | obj sub =>
          rw [leavesAux] at h ⊢
          simp only [bfs_step, qLeaves]
          have hsubl : ((flat ++ leavesAux sep parent rest).map Prod.fst).Sublist
              (((flat ++ (leavesAux sep (joinKey sep parent k) sub
                ++ leavesAux sep parent rest)).map Prod.fst)) := by
            simp only [List.map_append]
            exact (List.sublist_append_right _ _).append_left _
          have ihr := ih flat (h.sublist hsubl)
          rw [List.perm_iff_count] at ihr ⊢
          intro a
          have := ihr a
          simp only [List.count_append] at this ⊢
          omega

theorem flatten_bfs_aux_perm (sep : String) :
    ∀ (q : List (List (String × JsonVal) × String)) (flat : List (String × Int)),
      ((flat ++ qLeaves sep q).map Prod.fst).Nodup →
      (flatten_bfs_aux sep q flat).Perm (flat ++ qLeaves sep q) := by
  intro q flat
  induction q, flat using flatten_bfs_aux.induct sep with
  | case1 flat =>
      intro _
      simp [flatten_bfs_aux, qLeaves]
  | case2 d parent queue flat r ih =>
      intro h
      rw [qLeaves] at h ⊢
      have hr : r = bfs_step sep parent d flat := rfl
      rw [hr] at ih
      have hsubl : ((flat ++ leavesAux sep parent d).map Prod.fst).Sublist
          ((flat ++ (leavesAux sep parent d ++ qLeaves sep queue)).map Prod.fst) := by
        simp only [List.map_append]
        exact (List.sublist_append_left _ _).append_left _
      have hstep := bfs_step_perm sep parent d flat (h.sublist hsubl)
      have hchain : ((bfs_step sep parent d flat).2
            ++ qLeaves sep (queue ++ (bfs_step sep parent d flat).1)).Perm
          (flat ++ (leavesAux sep parent d ++ qLeaves sep queue)) := by
        rw [qLeaves_append, List.perm_iff_count]
        rw [List.perm_iff_count] at hstep
        intro a
        have := hstep a
        simp only [List.count_append] at this ⊢
        omega
      have h2 : (((bfs_step sep parent d flat).2
          ++ qLeaves sep (queue ++ (bfs_step sep parent d flat).1)).map Prod.fst).Nodup :=
        ((hchain.map Prod.fst).nodup_iff).mpr h
      have := ih h2
      simp only [flatten_bfs_aux]
      exact this.trans hchain

/-! ## Claim C1 -/

/-- Concrete input refuting claim C1 as stated: the leaf at path a→b and the
top-level key "a.b" both flatten to the dotted path "a.b". -/
def c1CxInput : List (String × JsonVal) :=
  [("a", JsonVal.obj [("b", JsonVal.scalar 1)]), ("a.b", JsonVal.scalar 2)]

/-- Claim C1 counterexample: on the JSON object
produce mappings with the same key set but different values at key "a.b":
depth-first yields 2 (the top-level entry overwrites last), breadth-first
yields 1 (the nested leaf is processed later and overwrites).  Hence the
claim as stated — identical values for every input object — is false. -/
theorem C1_counterexample :
    ¬ (∀ key, (flatten_dfs c1CxInput "" ".").lookup key
        = (flatten_bfs c1CxInput ".").lookup key) := by
  intro hall
  have h := hall "a.b"
  have hd : (flatten_dfs c1CxInput "" ".").lookup "a.b" = some 2 := by
    simp [c1CxInput, flatten_dfs, flatten_dfs_aux, dinsert, dmerge, joinKey, List.lookup]
  have hb : (flatten_bfs c1CxInput ".").lookup "a.b" = some 1 := by
    simp [c1CxInput, flatten_bfs, flatten_bfs_aux, bfs_step, dinsert, joinKey, List.lookup]
  rw [hd, hb] at h
  cases h

/-- Claim C1 (amended): for every JSON object whose leaves map to pairwise
distinct dotted paths (in particular whenever no key contains the separator),
`flatten_dfs` and `flatten_bfs` return mappings with identical key sets and
identical values for each key, the keys being the dotted paths from the root
to each scalar. -/
theorem C1_theorem (data : List (String × JsonVal)) (sep : String)
    (h : ((leavesAux sep "" data).map Prod.fst).Nodup) :
    (∀ key, (flatten_dfs data "" sep).lookup key
      = (flatten_bfs data sep).lookup key) ∧
    (∀ key, key ∈ (flatten_dfs data "" sep).map Prod.fst ↔
      key ∈ (flatten_bfs data sep).map Prod.fst) := by
  have hdfs : flatten_dfs data "" sep = leavesAux sep "" data := by
    have := flatten_dfs_aux_eq_leaves sep "" data [] (by simpa using h)
    simpa [flatten_dfs] using this
  have hbfs : (flatten_bfs data sep).Perm (leavesAux sep "" data) := by
    have := flatten_bfs_aux_perm sep [(data, "")] [] (by simpa [qLeaves] using h)
    simpa [flatten_bfs, qLeaves] using this
  constructor
  · intro key
    rw [hdfs]
    exact lookup_eq_of_perm hbfs.symm h key
  · intro key
    rw [hdfs]
    exact Iff.symm ((hbfs.map Prod.fst).mem_iff)

/-- Collision-free input used to witness the amended claim C1. -/
def c1WitnessInput : List (String × JsonVal) :=
  [("a", JsonVal.obj [("b", JsonVal.scalar 1)]), ("c", JsonVal.scalar 2)]

/-- Witness for C1_theorem on a concrete collision-free object. -/
theorem C1_witness :
    ((leavesAux "." "" c1WitnessInput).map Prod.fst).Nodup ∧
    (flatten_dfs c1WitnessInput "" ".").lookup "a.b"
      = (flatten_bfs c1WitnessInput ".").lookup "a.b" := by
  have hnd : ((leavesAux "." "" c1WitnessInput).map Prod.fst).Nodup := by
    simp [c1WitnessInput, leavesAux, joinKey]
  exact ⟨hnd, (C1_theorem c1WitnessInput "." hnd).1 "a.b"⟩

/-! ## GeminiVoiceService audio cache (services.py, lines 221-304) -/

/-- Raw audio bytes, one `Nat` per byte. -/
abbrev AudioBytes := List Nat

/-- The audio cache: a Python dict from cache key to audio bytes, in
insertion order (head = oldest-inserted entry). -/
abbrev AudioCache := List (String × AudioBytes)

/-- `self.cache_size_limit = 50`. -/
def cache_size_limit : Nat := 50

/-- `f"{text}_{voice_name}"` from `generate_speech`. -/
def cacheKey (text voiceName : String) : String :=
  text ++ "_" ++ voiceName

/-- `GeminiVoiceService._add_to_cache`: if the cache is at (or beyond) the
size limit, delete `next(iter(dict))` — the oldest-inserted key, the head of
the insertion-ordered list — then store the new entry. -/
def add_to_cache (key : String) (audioData : AudioBytes) (cache : AudioCache) :
    AudioCache :=
  dinsert key audioData
    (if cache_size_limit ≤ cache.length then cache.drop 1 else cache)

/-- Fold `add_to_cache` over a list of (key, value) insertions. -/
def add_all (entries : List (String × AudioBytes)) (cache : AudioCache) :
    AudioCache :=
  entries.foldl (fun acc kv => add_to_cache kv.1 kv.2 acc) cache

theorem dinsert_length_le {α : Type} (k : String) (v : α) :
    ∀ (l : List (String × α)), (dinsert k v l).length ≤ l.length + 1 := by
  intro l
  induction l with
  | nil => simp [dinsert]
  | cons kv rest ih =>
      by_cases hk : kv.1 = k
      · simp [dinsert, hk]
      · simp [dinsert, hk]
        omega

theorem add_to_cache_length_le (k : String) (v : AudioBytes) (c : AudioCache)
    (h : c.length ≤ 50) : (add_to_cache k v c).length ≤ 50 := by
  unfold add_to_cache
  by_cases hc : cache_size_limit ≤ c.length
  · rw [if_pos hc]
    have h1 := dinsert_length_le k v (c.drop 1)
    have h2 : (c.drop 1).length = c.length - 1 := by simp
    simp only [cache_size_limit] at hc
    omega
  · rw [if_neg hc]
    have h1 := dinsert_length_le k v c
    simp only [cache_size_limit, not_le] at hc
    omega

theorem add_all_length_le (entries : List (String × AudioBytes)) :
    ∀ (c : AudioCache), c.length ≤ 50 → (add_all entries c).length ≤ 50 := by
  induction entries with
  | nil => intro c h; simpa [add_all] using h
  | cons kv rest ih =>
      intro c h
      have h1 := add_to_cache_length_le kv.1 kv.2 c h
      simpa [add_all, List.foldl_cons] using ih _ h1

/-- Sliding-window characterisation of FIFO insertion: starting from a cache
whose keys are disjoint from (and jointly distinct with) the inserted keys,
the resulting key list is the tail window of the concatenated key sequence. -/
theorem add_all_keys (entries : List (String × AudioBytes)) :
    ∀ (c : AudioCache),
      ((c.map Prod.fst) ++ (entries.map Prod.fst)).Nodup →
      c.length ≤ 50 →
      (add_all entries c).map Prod.fst
        = ((c.map Prod.fst) ++ (entries.map Prod.fst)).drop
            (c.length + entries.length - 50) := by
  induction entries with
  | nil =>
      intro c _ hlen
      have h0 : c.length + 0 - 50 = 0 := by omega
      simp only [add_all, List.foldl_nil, List.map_nil, List.append_nil,
        List.length_nil, h0, List.drop_zero]
  | cons kv rest ih =>
      intro c hnd hlen
      obtain ⟨k, v⟩ := kv
      have hdisj := (List.nodup_append.mp hnd).2.2
      have hkc : k ∉ c.map Prod.fst := by
        intro hm
        exact hdisj hm (by simp)
      have hstep : add_all ((k, v) :: rest) c = add_all rest (add_to_cache k v c) := by
        simp [add_all, List.foldl_cons]
      by_cases hfull : 50 ≤ c.length
      · -- at capacity: drop the oldest entry, then append the new one
        have hc50 : c.length = 50 := by omega
        cases c with
        | nil => simp at hc50
        | cons kv0 ctail =>
          have hlen0 : ctail.length = 49 := by
            simp at hc50
            omega
          have hadd : add_to_cache k v (kv0 :: ctail) = ctail ++ [(k, v)] := by
            unfold add_to_cache
            have hc : cache_size_limit ≤ (kv0 :: ctail).length := by
              simp [cache_size_limit]
              omega
            rw [if_pos hc]
            simp only [List.drop_one, List.tail_cons]
            refine dinsert_of_not_mem ?_
            intro hm
            exact hkc (by simp [hm])
          have hnd1 : (kv0.1 :: (ctail.map Prod.fst ++ k :: rest.map Prod.fst)).Nodup := by
            have hEq : (kv0 :: ctail).map Prod.fst ++ ((k, v) :: rest).map Prod.fst
                = kv0.1 :: (ctail.map Prod.fst ++ k :: rest.map Prod.fst) := by
              simp
            rw [hEq] at hnd
            exact hnd
          have hnd2 : (((ctail ++ [(k, v)]).map Prod.fst) ++ rest.map Prod.fst).Nodup := by
            have h2 := (List.nodup_cons.mp hnd1).2
            have hEq : ((ctail ++ [(k, v)]).map Prod.fst) ++ rest.map Prod.fst
                = ctail.map Prod.fst ++ k :: rest.map Prod.fst := by
              simp
            rw [hEq]
            exact h2
          have hlen2 : (ctail ++ [(k, v)]).length ≤ 50 := by
            simp [hlen0]
          have hih := ih (ctail ++ [(k, v)]) hnd2 hlen2
          rw [hstep, hadd, hih]
          have hLHS : (ctail ++ [(k, v)]).map Prod.fst ++ rest.map Prod.fst
              = ctail.map Prod.fst ++ (k :: rest.map Prod.fst) := by
            simp
          have hL1 : (ctail ++ [(k, v)]).length + rest.length - 50 = rest.length := by
            simp only [List.length_append, List.length_cons, List.length_nil]
            omega
          have hRHS : (kv0 :: ctail).map Prod.fst ++ ((k, v) :: rest).map Prod.fst
              = kv0.1 :: (ctail.map Prod.fst ++ (k :: rest.map Prod.fst)) := by
            simp
          have hR1 : (kv0 :: ctail).length + ((k, v) :: rest).length - 50
              = rest.length + 1 := by
            simp only [List.length_cons]
            omega
          rw [hLHS, hL1, hRHS, hR1]
          exact (List.drop_succ_cons ..).symm
      · -- below capacity: plain append
        have hadd : add_to_cache k v c = c ++ [(k, v)] := by
          unfold add_to_cache
          have hc : ¬ cache_size_limit ≤ c.length := by
            simp [cache_size_limit]
            omega
          rw [if_neg hc]
          exact dinsert_of_not_mem hkc
        have hnd2 : (((c ++ [(k, v)]).map Prod.fst) ++ rest.map Prod.fst).Nodup := by
          have hEq : ((c ++ [(k, v)]).map Prod.fst) ++ rest.map Prod.fst
              = c.map Prod.fst ++ ((k, v) :: rest).map Prod.fst := by
            simp
          rw [hEq]
          exact hnd
        have hlen2 : (c ++ [(k, v)]).length ≤ 50 := by
          simp
          omega
        have hih := ih (c ++ [(k, v)]) hnd2 hlen2
        rw [hstep, hadd, hih]
        have hL1 : (c ++ [(k, v)]).length + rest.length - 50
            = c.length + ((k, v) :: rest).length - 50 := by
          simp only [List.length_append, List.length_cons, List.length_nil]
          omega
        have hLHS : (c ++ [(k, v)]).map Prod.fst ++ rest.map Prod.fst
            = c.map Prod.fst ++ ((k, v) :: rest).map Prod.fst := by
          simp
        rw [hL1, hLHS]

/-! ## convert_pcm_to_wav (services.py, lines 306-336) -/

/-- `struct.pack("<H", n)`: two little-endian bytes. -/
def le16 (n : Nat) : List Nat :=
  [n % 256, n / 256 % 256]

/-- `struct.pack("<I", n)`: four little-endian bytes. -/
def le32 (n : Nat) : List Nat :=
  [n % 256, n / 256 % 256, n / 65536 % 256, n / 16777216 % 256]

/-- The 44-byte header written by `convert_pcm_to_wav` for a payload of
`dataSize` bytes: RIFF tag, chunk size, WAVE and fmt tags, fmt-chunk size 16,
PCM format 1, 1 channel, 24000 Hz, byte rate 48000, block align 2, 16 bits,
data tag, data size.  Tag bytes are the ASCII codes of
RIFF / WAVE / fmt(space) / data. -/
def wav_header (dataSize : Nat) : List Nat :=
  [82, 73, 70, 70] ++ le32 (36 + dataSize)
    ++ [87, 65, 86, 69] ++ [102, 109, 116, 32]
    ++ le32 16 ++ le16 1 ++ le16 1 ++ le32 24000 ++ le32 (24000 * 1 * 2)
    ++ le16 (1 * 2) ++ le16 (2 * 8)
    ++ [100, 97, 116, 97] ++ le32 dataSize

/-- `GeminiVoiceService.convert_pcm_to_wav`: writes the header followed by
the payload.  `struct.pack("<I", ...)` raises `struct.error` once
`36 + len(pcm_data)` no longer fits in 32 bits; the surrounding
`try/except` then returns `pcm_data` unchanged. -/
def convert_pcm_to_wav (pcm_data : AudioBytes) : AudioBytes :=
  if 36 + pcm_data.length < 4294967296 then wav_header pcm_data.length ++ pcm_data
  else pcm_data

/-! ## generate_speech cache interaction (services.py, lines 228-283) -/

/-- The cache-relevant behaviour of `GeminiVoiceService.generate_speech`:
on a cache hit the cached bytes are returned and the cache is untouched; on
a miss the backend is consulted (modelled by `backendAudio`: `none` when the
API call fails or returns no audio, `some pcm` when it returns raw PCM),
the PCM is converted to WAV, stored via `_add_to_cache` and returned. -/
def generate_speech_step (text voiceName : String)
    (backendAudio : Option AudioBytes) (cache : AudioCache) :
    AudioCache × Option AudioBytes :=
  match cache.lookup (cacheKey text voiceName) with
  | some audio => (cache, some audio)
  | none =>
      match backendAudio with
      | none => (cache, none)
      | some pcm =>
          let wav := convert_pcm_to_wav pcm
          (add_to_cache (cacheKey text voiceName) wav cache, some wav)

theorem lookup_ne_none_of_mem {α : Type} {k : String} :
    ∀ {l : List (String × α)}, k ∈ l.map Prod.fst → l.lookup k ≠ none := by
  intro l
  induction l with
  | nil => intro hm; simp at hm
  | cons kv rest ih =>
      obtain ⟨k1, v1⟩ := kv
      intro hm
      by_cases hk : k = k1
      · have hb : (k == k1) = true := beq_iff_eq.mpr hk
        simp only [List.lookup, hb]
        simp
      · have hb : (k == k1) = false := beq_eq_false_iff_ne.mpr hk
        have hm2 : k ∈ rest.map Prod.fst := by
          rcases List.mem_map.mp hm with ⟨p, hab, hfst⟩
          rcases List.mem_cons.mp hab with he | hr
          · subst he
            exact absurd hfst.symm hk
          · exact List.mem_map.mpr ⟨p, hr, hfst⟩
        simp only [List.lookup, hb]
        exact ih hm2

/-! ## Claim C2 -/

/-- Claim C2: the audio cache never holds more than 50 entries — any
insertion sequence applied to a cache within the limit stays within it;
inserting 51 distinct keys into an empty cache leaves exactly the
first-inserted key absent and the other 50 present, in strict FIFO order
(the resulting key list is the insertion order minus its head); and the
cache-hit path of `generate_speech` leaves the cache unchanged, so a read
never changes which entry is evicted next. -/
theorem C2_theorem (entries : List (String × AudioBytes))
    (h51 : entries.length = 51) (hnd : (entries.map Prod.fst).Nodup) :
    ((add_all entries []).map Prod.fst = (entries.map Prod.fst).drop 1) ∧
    (∀ k0 ∈ (entries.map Prod.fst).take 1,
      k0 ∉ (add_all entries []).map Prod.fst) ∧
    (∀ k ∈ (entries.map Prod.fst).drop 1, k ∈ (add_all entries []).map Prod.fst) ∧
    ((add_all entries []).length = 50) ∧
    (∀ (es : List (String × AudioBytes)) (c : AudioCache),
      c.length ≤ 50 → (add_all es c).length ≤ 50) ∧
    (∀ (text voiceName : String) (b : Option AudioBytes) (c : AudioCache),
      cacheKey text voiceName ∈ c.map Prod.fst →
      (generate_speech_step text voiceName b c).1 = c) := by
  have hkeys : (add_all entries []).map Prod.fst = (entries.map Prod.fst).drop 1 := by
    have := add_all_keys entries [] (by simpa using hnd) (by simp)
    simpa [h51] using this
  refine ⟨hkeys, ?_, ?_, ?_, ?_, ?_⟩
  · intro k0 hk0
    rw [hkeys]
    cases hE : entries.map Prod.fst with
    | nil => simp [hE] at hk0
    | cons k1 krest =>
        rw [hE] at hk0 hnd
        simp at hk0
        subst hk0
        simp only [List.drop_succ_cons, List.drop_zero]
        exact (List.nodup_cons.mp hnd).1
  · intro k hk
    rw [hkeys]
    exact hk
  · have hlen := congrArg List.length hkeys
    simp only [List.length_map, List.length_drop] at hlen
    omega
  · intro es c hc
    exact add_all_length_le es c hc
  · intro text voiceName b c hmem
    unfold generate_speech_step
    cases hl : c.lookup (cacheKey text voiceName) with
    | some audio => rfl
    | none => exact absurd hl (lookup_ne_none_of_mem hmem)

/-- 51 concrete distinct keys used to witness claim C2. -/
def c2Entries : List (String × AudioBytes) :=
  (List.range 51).map (fun i => (toString i, []))

/-- Witness for C2_theorem: inserting the 51 concrete distinct keys of
`c2Entries` into the empty cache keeps exactly the last 50. -/
theorem C2_witness :
    c2Entries.length = 51 ∧ (c2Entries.map Prod.fst).Nodup ∧
    (add_all c2Entries []).map Prod.fst = (c2Entries.map Prod.fst).drop 1 := by
  have h1 : c2Entries.length = 51 := by simp [c2Entries]
  have h2 : (c2Entries.map Prod.fst).Nodup := by decide
  exact ⟨h1, h2, (C2_theorem c2Entries h1 h2).1⟩

/-! ## Claims C3 and C9 -/

/-- Decode two little-endian bytes. -/
def le16val : List Nat → Nat
  | [a, b] => a + 256 * b
  | _ => 0

/-- Decode four little-endian bytes. -/
def le32val : List Nat → Nat
  | [a, b, c, d] => a + 256 * b + 65536 * c + 16777216 * d
  | _ => 0

theorem le16val_le16 (n : Nat) (h : n < 65536) : le16val (le16 n) = n := by
  simp only [le16, le16val]
  omega

theorem le32val_le32 (n : Nat) (h : n < 4294967296) : le32val (le32 n) = n := by
  simp only [le32, le32val]
  omega

/-- Claim C3 (amended): for every raw PCM byte string whose length `N`
satisfies `N + 36 < 2^32` (so that the 32-bit size fields can be packed),
`convert_pcm_to_wav` returns `N + 44` bytes: a 44-byte little-endian WAV
header followed by the input unmodified, with RIFF chunk size `N + 36`,
data size `N`, 1 channel, 24000 Hz sample rate, 48000 byte rate, block
alignment 2 and 16 bits per sample. -/
theorem C3_theorem (pcm : AudioBytes) (h : 36 + pcm.length < 4294967296) :
    (convert_pcm_to_wav pcm).length = pcm.length + 44 ∧
    (convert_pcm_to_wav pcm).take 44 = wav_header pcm.length ∧
    (convert_pcm_to_wav pcm).drop 44 = pcm ∧
    (((convert_pcm_to_wav pcm).drop 4).take 4 = le32 (36 + pcm.length) ∧
      le32val (le32 (36 + pcm.length)) = 36 + pcm.length) ∧
    (((convert_pcm_to_wav pcm).drop 40).take 4 = le32 pcm.length ∧
      le32val (le32 pcm.length) = pcm.length) ∧
    (((convert_pcm_to_wav pcm).drop 22).take 2 = le16 1 ∧
      le16val (le16 1) = 1) ∧
    (((convert_pcm_to_wav pcm).drop 24).take 4 = le32 24000 ∧
      le32val (le32 24000) = 24000) ∧
    (((convert_pcm_to_wav pcm).drop 28).take 4 = le32 48000 ∧
      le32val (le32 48000) = 48000) ∧
    (((convert_pcm_to_wav pcm).drop 32).take 2 = le16 2 ∧
      le16val (le16 2) = 2) ∧
    (((convert_pcm_to_wav pcm).drop 34).take 2 = le16 16 ∧
      le16val (le16 16) = 16) := by
  have hw : convert_pcm_to_wav pcm = wav_header pcm.length ++ pcm := by
    unfold convert_pcm_to_wav
    rw [if_pos h]
  rw [hw]
  refine ⟨?_, ?_, ?_, ⟨?_, le32val_le32 _ (by omega)⟩,
    ⟨?_, le32val_le32 _ (by omega)⟩, ⟨?_, le16val_le16 _ (by omega)⟩,
    ⟨?_, le32val_le32 _ (by omega)⟩, ⟨?_, le32val_le32 _ (by omega)⟩,
    ⟨?_, le16val_le16 _ (by omega)⟩, ⟨?_, le16val_le16 _ (by omega)⟩⟩
  all_goals simp [wav_header, le32, le16]

/-- Claim C3 counterexample: for an input of 2^32 - 36 bytes the packing of
the 32-bit RIFF size raises, the exception handler returns the input
unchanged, and the output is not `N + 44` bytes long.  So the claim does not
hold for every PCM byte string. -/
theorem C3_counterexample :
    ¬ ((convert_pcm_to_wav (List.replicate 4294967260 0)).length
        = (List.replicate 4294967260 0).length + 44) := by
  intro hcl
  have hno : ¬ (36 + (List.replicate 4294967260 (0 : Nat)).length < 4294967296) := by
    rw [List.length_replicate]
    omega
  have hid : convert_pcm_to_wav (List.replicate 4294967260 0)
      = List.replicate 4294967260 0 := by
    unfold convert_pcm_to_wav
    rw [if_neg hno]
  rw [hid, List.length_replicate] at hcl
  omega

/-- Witness for C3_theorem on a concrete 2-byte payload. -/
theorem C3_witness :
    36 + ([7, 8] : AudioBytes).length < 4294967296 ∧
    (convert_pcm_to_wav [7, 8]).length = ([7, 8] : AudioBytes).length + 44 ∧
    (convert_pcm_to_wav [7, 8]).drop 44 = ([7, 8] : AudioBytes) := by
  have h : 36 + ([7, 8] : AudioBytes).length < 4294967296 := by decide
  have hc := C3_theorem [7, 8] h
  exact ⟨h, hc.1, hc.2.2.1⟩

/-- Claim C9: `convert_pcm_to_wav` is total — every input yields either the
framed header-plus-payload output or, when the 32-bit header fields cannot
be packed (the internal failure path), the input bytes unchanged; in the
failure case the output carries no 44-byte header at all. -/
theorem C9_theorem (pcm : AudioBytes) :
    (convert_pcm_to_wav pcm = wav_header pcm.length ++ pcm ∨
      convert_pcm_to_wav pcm = pcm) ∧
    (4294967296 ≤ 36 + pcm.length → convert_pcm_to_wav pcm = pcm) := by
  unfold convert_pcm_to_wav
  by_cases hc : 36 + pcm.length < 4294967296
  · rw [if_pos hc]
    exact ⟨Or.inl rfl, by intro h2; omega⟩
  · rw [if_neg hc]
    exact ⟨Or.inr rfl, fun _ => rfl⟩

/-- Witness for C9_theorem: a 2^32 - 36 byte payload takes the failure path
and comes back unchanged. -/
theorem C9_witness :
    4294967296 ≤ 36 + (List.replicate 4294967260 (0 : Nat)).length ∧
    convert_pcm_to_wav (List.replicate 4294967260 0)
      = List.replicate 4294967260 0 := by
  have h : 4294967296 ≤ 36 + (List.replicate 4294967260 (0 : Nat)).length := by
    rw [List.length_replicate]
  exact ⟨h, (C9_theorem (List.replicate 4294967260 0)).2 h⟩

/-! ## Chat pipeline (services.py, lines 121-149; client.py, lines 71-91) -/

/-- Python `str.strip()`: drop leading and trailing whitespace.  Implemented
structurally over the character list so that it evaluates by `decide`. -/
def pyStrip (s : String) : String :=
  String.mk (((s.data.dropWhile Char.isWhitespace).reverse.dropWhile
    Char.isWhitespace).reverse)

/-- Accumulating splitter behind `pyWords`: walk the characters, collecting
the current word (reversed) and emitting it at each whitespace run. -/
def pyWordsAux : List Char → List Char → List String
  | [], [] => []
  | [], acc => [String.mk acc.reverse]
  | c :: cs, acc =>
      if c.isWhitespace then
        if acc.isEmpty then pyWordsAux cs []
        else String.mk acc.reverse :: pyWordsAux cs []
      else pyWordsAux cs (c :: acc)

/-- Python `str.split()` with no argument: the whitespace-separated words,
empty runs discarded. -/
def pyWords (s : String) : List String :=
  pyWordsAux s.data []

/-- One conversation turn: the user utterance and the assistant reply. -/
structure Turn where
  user : String
  assistant : String
deriving DecidableEq, Repr

/-- An outbound frame sent over the websocket, keyed by its `type` field.
The error variant records the correlation id echoed in the frame, `none`
when the emitted JSON object carries no such key. -/
inductive OutFrame where
  | system (message : String)
  | assistant (message : String)
  | voiceResponse (text : String) (voice : String) (audio : AudioBytes)
  | error (message : String) (correlationId : Option String)
deriving DecidableEq, Repr

/-- An Activity Record as written by `ChatLogger.log_chat`, restricted to
the fields the handlers populate. -/
structure LogRecord where
  message_type : String
  user_message : String
  assistant_response : String
  message_length : Nat
  voice_generated : Bool
  voice_voice_name : String
  error_message : String
  processing_status : String
deriving DecidableEq, Repr

/-- Fallback returned by `generate_response` when the client is not
initialized and initialization fails. -/
def config_fallback : String :=
  "Sorry, I\x27m having trouble connecting to the AI service. Please check your configuration."

/-- Fallback returned by `generate_response` when the backend call raises. -/
def error_fallback : String :=
  "I apologize, but I encountered an error while processing your request. Please try again."

/-- `conversation_history[-5:]` — the prompt look-back window. -/
def recent_window (history : List Turn) : List Turn :=
  history.drop (history.length - 5)

/-- The `context` string built from the window: a "User: ..." and an
"Assistant: ..." line per turn, newline-joined, plus a blank line; empty
when the history is empty. -/
def build_context (history : List Turn) : String :=
  if history.isEmpty then ""
  else
    String.intercalate "\n"
      (((recent_window history).map
        (fun m => ["User: " ++ m.user, "Assistant: " ++ m.assistant])).flatten)
      ++ "\n\n"

/-- The preamble of every chat prompt. -/
def prompt_preamble : String :=
  "You are a helpful AI assistant. Be concise, friendly, and helpful in your responses.\n\n"

/-- `full_prompt` as assembled by `generate_response`. -/
def full_prompt (userMessage : String) (history : List Turn) : String :=
  prompt_preamble ++ build_context history
    ++ "User: " ++ userMessage ++ "\nAssistant:"

/-- `GeminiClient.generate_response`.  `initialized` is the client state on
entry, `initOk` the outcome `initialize()` would produce, and `oracle` maps
a prompt to the backend outcome (`Except.error` models a raised exception).
All exits return a string: the configuration fallback, the stripped backend
text, or the apology fallback from the `except` clause. -/
def generate_response (initialized initOk : Bool)
    (oracle : String → Except String String)
    (userMessage : String) (history : List Turn) : String :=
  if initialized = false ∧ initOk = false then config_fallback
  else
    match oracle (full_prompt userMessage history) with
    | Except.ok text => pyStrip text
    | Except.error _ => error_fallback

/-- Result of one chat-message handling pass: outbound frames, appended
Activity Records, and the session history after the pass. -/
structure ChatResult where
  frames : List OutFrame
  records : List LogRecord
  history : List Turn
deriving DecidableEq, Repr

/-- `ChatbotWebSocketServer.handle_chat_message`: strip the payload, return
silently when empty, otherwise obtain the reply, send one assistant frame,
append the turn to the session history and write one success record. -/
def handle_chat_message (initialized initOk : Bool)
    (oracle : String → Except String String)
    (rawMessage : String) (history : List Turn) : ChatResult :=
  let userMessage := pyStrip rawMessage
  if userMessage = "" then ⟨[], [], history⟩
  else
    let aiResponse := generate_response initialized initOk oracle userMessage history
    ⟨[OutFrame.assistant aiResponse],
     [⟨"chat", userMessage, aiResponse, userMessage.length,
       false, "", "", "success"⟩],
     history ++ [⟨userMessage, aiResponse⟩]⟩

/-! ## Claim C7 -/

/-- Claim C7: an inbound chat frame whose message is empty or all-whitespace
after trimming produces no outbound frame, writes no Activity Record, and
leaves the session history unchanged. -/
theorem C7_theorem (initialized initOk : Bool)
    (oracle : String → Except String String)
    (rawMessage : String) (history : List Turn)
    (h : pyStrip rawMessage = "") :
    handle_chat_message initialized initOk oracle rawMessage history
      = ⟨[], [], history⟩ := by
  unfold handle_chat_message
  rw [h]
  simp

/-- Witness for C7_theorem: a whitespace-only message is silently dropped. -/
theorem C7_witness :
    pyStrip "  " = "" ∧
    handle_chat_message true true (fun _ => Except.ok "hello") "  " []
      = ⟨[], [], []⟩ := by
  have h : pyStrip "  " = "" := by decide
  exact ⟨h, C7_theorem true true (fun _ => Except.ok "hello") "  " [] h⟩

/-! ## Claim C4 -/

/-- Claim C4 counterexample: with a backend that raises, the handler sends
the apology reply, but the single Activity Record it writes carries
`processing_status = "success"` and an empty `error_message` — not
`processing_status = "error"` with the failure detail, as the claim states. -/
theorem C4_counterexample :
    (handle_chat_message true true (fun _ => Except.error "boom") "hi" []).frames
      = [OutFrame.assistant error_fallback] ∧
    ¬ (∀ r ∈ (handle_chat_message true true
        (fun _ => Except.error "boom") "hi" []).records,
      r.processing_status = "error") := by
  decide

/-- Claim C4 (amended): when the backend call raises, the handler for a
non-empty chat message sends exactly one reply frame containing the
apologetic fallback (the error is not propagated to the client), but the
Activity Record written for that frame has `processing_status = "success"`
and an empty `error_message` — the handler cannot observe the failure, so
no failure detail reaches the log. -/
theorem C4_theorem (oracle : String → Except String String)
    (rawMessage : String) (history : List Turn) (err : String)
    (hmsg : pyStrip rawMessage ≠ "")
    (hfail : oracle (full_prompt (pyStrip rawMessage) history)
      = Except.error err) :
    (handle_chat_message true true oracle rawMessage history).frames
      = [OutFrame.assistant error_fallback] ∧
    (handle_chat_message true true oracle rawMessage history).records.map
      LogRecord.processing_status = ["success"] ∧
    (handle_chat_message true true oracle rawMessage history).records.map
      LogRecord.error_message = [""] := by
  have hresp : generate_response true true oracle (pyStrip rawMessage) history
      = error_fallback := by
    unfold generate_response
    rw [if_neg (by simp)]
    rw [hfail]
  unfold handle_chat_message
  rw [if_neg hmsg, hresp]
  exact ⟨rfl, rfl, rfl⟩

/-- Witness for C4_theorem on a concrete failing backend. -/
theorem C4_witness :
    pyStrip "hi" ≠ "" ∧
    (fun _ => Except.error "boom" : String → Except String String)
      (full_prompt (pyStrip "hi") []) = Except.error "boom" ∧
    (handle_chat_message true true (fun _ => Except.error "boom") "hi" []).frames
      = [OutFrame.assistant error_fallback] := by
  have h1 : pyStrip "hi" ≠ "" := by decide
  have h2 : (fun _ => Except.error "boom" : String → Except String String)
      (full_prompt (pyStrip "hi") []) = Except.error "boom" := rfl
  exact ⟨h1, h2, (C4_theorem (fun _ => Except.error "boom") "hi" [] "boom" h1 h2).1⟩

/-! ## Claim C10 -/

/-- Claim C10: `generate_response` never raises and never returns a missing
value despite its `Optional` annotation — every exit is a string.  When the
client is uninitialized and initialization fails it returns the fixed
non-empty configuration fallback; when the backend call raises it returns
the fixed non-empty apology fallback; and a non-empty chat message always
yields exactly one assistant reply frame carrying that string. -/
theorem C10_theorem (initialized initOk : Bool)
    (oracle : String → Except String String)
    (rawMessage : String) (history : List Turn)
    (hmsg : pyStrip rawMessage ≠ "") :
    ((initialized = false ∧ initOk = false) →
      generate_response initialized initOk oracle (pyStrip rawMessage) history
        = config_fallback) ∧
    config_fallback ≠ "" ∧
    (∀ err, ¬ (initialized = false ∧ initOk = false) →
      oracle (full_prompt (pyStrip rawMessage) history) = Except.error err →
      generate_response initialized initOk oracle (pyStrip rawMessage) history
        = error_fallback) ∧
    error_fallback ≠ "" ∧
    (handle_chat_message initialized initOk oracle rawMessage history).frames
      = [OutFrame.assistant
          (generate_response initialized initOk oracle (pyStrip rawMessage) history)] := by
  refine ⟨?_, by decide, ?_, by decide, ?_⟩
  · intro hcond
    unfold generate_response
    rw [if_pos hcond]
  · intro err hncond hfail
    unfold generate_response
    rw [if_neg hncond, hfail]
  · unfold handle_chat_message
    rw [if_neg hmsg]

/-- Witness for C10_theorem on a failing backend with an initialized client. -/
theorem C10_witness :
    pyStrip "hi" ≠ "" ∧
    (handle_chat_message true true (fun _ => Except.error "down") "hi" []).frames
      = [OutFrame.assistant
          (generate_response true true (fun _ => Except.error "down")
            (pyStrip "hi") [])] := by
  have h1 : pyStrip "hi" ≠ "" := by decide
  exact ⟨h1,
    (C10_theorem true true (fun _ => Except.error "down") "hi" [] h1).2.2.2.2⟩

/-! ## Claim C8 -/

theorem recent_window_idem (h : List Turn) :
    recent_window (recent_window h) = recent_window h := by
  unfold recent_window
  have hlen : (h.drop (h.length - 5)).length = h.length - (h.length - 5) :=
    List.length_drop _ _
  have h0 : (h.drop (h.length - 5)).length - 5 = 0 := by
    rw [hlen]
    omega
  rw [h0, List.drop_zero]

theorem recent_window_isEmpty (h : List Turn) :
    (recent_window h).isEmpty = h.isEmpty := by
  cases h with
  | nil => rfl
  | cons t ts =>
      have hlen : (recent_window (t :: ts)).length
          = (t :: ts).length - ((t :: ts).length - 5) := List.length_drop _ _
      have hpos : 0 < (recent_window (t :: ts)).length := by
        rw [hlen]
        simp only [List.length_cons]
        omega
      cases hE : recent_window (t :: ts) with
      | nil => rw [hE] at hpos; simp at hpos
      | cons x xs => rfl

theorem build_context_window (h : List Turn) :
    build_context (recent_window h) = build_context h := by
  unfold build_context
  rw [recent_window_idem, recent_window_isEmpty]

/-- Claim C8: prompt construction uses exactly the last five conversation
turns — the prompt built from any history equals the prompt built from its
five-turn window; after the six turns [A,B,C,D,E,F] the window is exactly
[B,C,D,E,F] in order; and a history of at most five turns is returned whole
and in order.  The window is computed by pure slicing, so retrieval does not
mutate the stored history. -/
theorem C8_theorem (userMessage : String) (history : List Turn) :
    full_prompt userMessage history
      = full_prompt userMessage (recent_window history) ∧
    (∀ a b c d e f : Turn, recent_window [a, b, c, d, e, f] = [b, c, d, e, f]) ∧
    (∀ h2 : List Turn, h2.length ≤ 5 → recent_window h2 = h2) := by
  refine ⟨?_, ?_, ?_⟩
  · unfold full_prompt
    rw [build_context_window]
  · intro a b c d e f
    rfl
  · intro h2 hlen
    unfold recent_window
    have h0 : h2.length - 5 = 0 := by omega
    rw [h0, List.drop_zero]

/-- Witness for C8_theorem: six concrete turns yield the expected window. -/
theorem C8_witness :
    recent_window [⟨"a", "1"⟩, ⟨"b", "2"⟩, ⟨"c", "3"⟩, ⟨"d", "4"⟩,
        ⟨"e", "5"⟩, ⟨"f", "6"⟩]
      = [⟨"b", "2"⟩, ⟨"c", "3"⟩, ⟨"d", "4"⟩, ⟨"e", "5"⟩, ⟨"f", "6"⟩] ∧
    ([⟨"a", "1"⟩, ⟨"b", "2"⟩] : List Turn).length ≤ 5 ∧
    recent_window [⟨"a", "1"⟩, ⟨"b", "2"⟩] = [⟨"a", "1"⟩, ⟨"b", "2"⟩] := by
  have h := C8_theorem "msg" []
  exact ⟨h.2.1 ⟨"a", "1"⟩ ⟨"b", "2"⟩ ⟨"c", "3"⟩ ⟨"d", "4"⟩ ⟨"e", "5"⟩ ⟨"f", "6"⟩,
    by decide, h.2.2 [⟨"a", "1"⟩, ⟨"b", "2"⟩] (by decide)⟩

/-! ## handle_voice_request (client.py, lines 93-130) -/

/-- Result of one voice-request handling pass. -/
structure VoiceResult where
  frames : List OutFrame
  records : List LogRecord
  cache : AudioCache
deriving DecidableEq, Repr

/-- `ChatbotWebSocketServer.handle_voice_request`: strip the text, reject
empty input with an error frame, otherwise run `generate_speech` (through
the shared cache) and either send the audio with a success record or send
the fixed error frame with an error record.  `requestId` carries any
correlation id present on the inbound frame; the source never reads it, and
neither emitted error frame includes one (`correlationId := none`). -/
def handle_voice_request (rawText voiceName : String) (requestId : Option String)
    (backendAudio : Option AudioBytes) (cache : AudioCache) : VoiceResult :=
  let text := pyStrip rawText
  if text = "" then
    ⟨[OutFrame.error "No text provided for voice generation" none], [], cache⟩
  else
    let r := generate_speech_step text voiceName backendAudio cache
    match r.2 with
    | some audio =>
        ⟨[OutFrame.voiceResponse text voiceName audio],
         [⟨"voice_request", "", text, text.length, true, voiceName, "", "success"⟩],
         r.1⟩
    | none =>
        ⟨[OutFrame.error "Failed to generate voice" none],
         [⟨"voice_request", "", text, text.length, false, voiceName,
           "Failed to generate voice", "error"⟩],
         r.1⟩

/-! ## Claim C5 -/

/-- Claim C5 counterexample: a voice request carrying correlation id
"req-1" whose backend returns no audio gets exactly one error frame, but
that frame carries no correlation id at all — not the id of the request,
as the claim states. -/
theorem C5_counterexample :
    (handle_voice_request "hello" "Kore" (some "req-1") none []).frames
      = [OutFrame.error "Failed to generate voice" none] ∧
    ¬ (∃ m, (handle_voice_request "hello" "Kore" (some "req-1") none []).frames
        = [OutFrame.error m (some "req-1")]) := by
  have hfrm : (handle_voice_request "hello" "Kore" (some "req-1") none []).frames
      = [OutFrame.error "Failed to generate voice" none] := by decide
  refine ⟨hfrm, ?_⟩
  rintro ⟨m, hm⟩
  rw [hfrm] at hm
  simp at hm

/-- Claim C5 (amended): for every voice-synthesis request whose backend call
returns no audio, the handler sends exactly one error frame — but the frame
carries no correlation id (the inbound id is ignored by the handler), so the
caller cannot match it to its original request by id; the Activity Record
written for it has status error. -/
theorem C5_theorem (rawText voiceName : String) (requestId : Option String)
    (cache : AudioCache)
    (htext : pyStrip rawText ≠ "")
    (hmiss : cache.lookup (cacheKey (pyStrip rawText) voiceName) = none) :
    (handle_voice_request rawText voiceName requestId none cache).frames
      = [OutFrame.error "Failed to generate voice" none] ∧
    (handle_voice_request rawText voiceName requestId none cache).records.map
      LogRecord.processing_status = ["error"] := by
  have hstep : generate_speech_step (pyStrip rawText) voiceName none cache
      = (cache, none) := by
    unfold generate_speech_step
    rw [hmiss]
  unfold handle_voice_request
  rw [if_neg htext, hstep]
  exact ⟨rfl, rfl⟩

/-- Witness for C5_theorem on a concrete cache-missing request. -/
theorem C5_witness :
    pyStrip "hello" ≠ "" ∧
    (([] : AudioCache).lookup (cacheKey (pyStrip "hello") "Kore") = none) ∧
    (handle_voice_request "hello" "Kore" (some "req-1") none []).frames
      = [OutFrame.error "Failed to generate voice" none] := by
  have h1 : pyStrip "hello" ≠ "" := by decide
  have h2 : ([] : AudioCache).lookup (cacheKey (pyStrip "hello") "Kore") = none := rfl
  have hc := C5_theorem "hello" "Kore" (some "req-1") [] h1 h2
  exact ⟨h1, h2, hc.1⟩

/-! ## smart_summarize (services.py, lines 154-219) -/

/-- Prompt of the free-form summarization call. -/
def summary_prompt (text : String) : String :=
  "Summarize the following content concisely:\n\n" ++ text

/-- Prompt of the single-word sentiment classification call. -/
def sentiment_prompt (text : String) : String :=
  "Analyze the sentiment of the following text: \x27" ++ text
    ++ "\x27. Respond with a single word: positive, negative, or neutral."

/-- Prompt of the fixed-count key-fact extraction call. -/
def facts_prompt (text : String) : String :=
  "Extract exactly 5 key facts from the following text:\n\n" ++ text

/-- Prompt of the conditional condensation call. -/
def resummarize_prompt (summary : String) : String :=
  "Resummarize the following text to under 200 words using bullet points:\n\n"
    ++ summary

/-- The combined result dict of `smart_summarize`. -/
structure SummaryOutput where
  summary : String
  sentiment : String
  key_facts : String
deriving DecidableEq, Repr

/-- `GeminiClient.smart_summarize`, instrumented with the ordered list of
prompts actually sent to the backend.  The source issues the summarization,
sentiment and key-fact calls in that order, then — only when the stripped
summary exceeds 300 whitespace-separated words — one condensation call
whose stripped result replaces the summary.  Any raised call makes the
enclosing `try` return `None` (no partial results). -/
def smart_summarize (oracle : String → Except String String) (text : String) :
    Option SummaryOutput × List String :=
  match oracle (summary_prompt text) with
  | Except.error _ => (none, [summary_prompt text])
  | Except.ok s0 =>
    match oracle (sentiment_prompt text) with
    | Except.error _ => (none, [summary_prompt text, sentiment_prompt text])
    | Except.ok st0 =>
      match oracle (facts_prompt text) with
      | Except.error _ =>
          (none, [summary_prompt text, sentiment_prompt text, facts_prompt text])
      | Except.ok f0 =>
        if 300 < (pyWords (pyStrip s0)).length then
          match oracle (resummarize_prompt (pyStrip s0)) with
          | Except.error _ =>
              (none, [summary_prompt text, sentiment_prompt text,
                facts_prompt text, resummarize_prompt (pyStrip s0)])
          | Except.ok r0 =>
              (some ⟨pyStrip r0, pyStrip st0, pyStrip f0⟩,
               [summary_prompt text, sentiment_prompt text,
                facts_prompt text, resummarize_prompt (pyStrip s0)])
        else
          (some ⟨pyStrip s0, pyStrip st0, pyStrip f0⟩,
           [summary_prompt text, sentiment_prompt text, facts_prompt text])

/-- The sequence aborts with the failure result exactly when one of the
issued calls raised; a successful result implies every issued call
succeeded (no partial results ever escape). -/
theorem smart_summarize_none_iff (g : String → Except String String)
    (t : String) :
    (smart_summarize g t).1 = none ↔
      ∃ p ∈ (smart_summarize g t).2, ∃ e, g p = Except.error e := by
  unfold smart_summarize
  cases hq1 : g (summary_prompt t) with
  | error e1 => simp [hq1]
  | ok s0 =>
    cases hq2 : g (sentiment_prompt t) with
    | error e2 => simp [hq1, hq2]
    | ok st0 =>
      cases hq3 : g (facts_prompt t) with
      | error e3 => simp [hq1, hq2, hq3]
      | ok f0 =>
        by_cases hw : 300 < (pyWords (pyStrip s0)).length
        · cases hq4 : g (resummarize_prompt (pyStrip s0)) with
          | error e4 => simp [hq1, hq2, hq3, hq4, hw]
          | ok r0 => simp [hq1, hq2, hq3, hq4, hw]
        · simp [hq1, hq2, hq3, hw]

/-- Claim C6: when all backend calls succeed, the summarization command
issues exactly the three calls — summarization, sentiment classification
and key-fact extraction — plus one condensation call (requesting
under-200-word bullet output) if and only if the stripped summary exceeds
300 whitespace-split words, in which case the condensed text replaces the
summary in the combined result; and the sequence yields the failure result
`none` (no partial results) exactly when one of the issued calls raises. -/
theorem C6_theorem (oracle : String → Except String String)
    (text s st f : String)
    (h1 : oracle (summary_prompt text) = Except.ok s)
    (h2 : oracle (sentiment_prompt text) = Except.ok st)
    (h3 : oracle (facts_prompt text) = Except.ok f) :
    ((smart_summarize oracle text).2
      = [summary_prompt text, sentiment_prompt text, facts_prompt text]
        ++ (if 300 < (pyWords (pyStrip s)).length
            then [resummarize_prompt (pyStrip s)] else [])) ∧
    ((pyWords (pyStrip s)).length ≤ 300 →
      (smart_summarize oracle text).1
        = some ⟨pyStrip s, pyStrip st, pyStrip f⟩) ∧
    (∀ c, 300 < (pyWords (pyStrip s)).length →
      oracle (resummarize_prompt (pyStrip s)) = Except.ok c →
      (smart_summarize oracle text).1
        = some ⟨pyStrip c, pyStrip st, pyStrip f⟩) ∧
    (∀ (g : String → Except String String) (t2 : String),
      (smart_summarize g t2).1 = none ↔
        ∃ p ∈ (smart_summarize g t2).2, ∃ e, g p = Except.error e) := by
  refine ⟨?_, ?_, ?_, smart_summarize_none_iff⟩
  · unfold smart_summarize
    by_cases hw : 300 < (pyWords (pyStrip s)).length
    · cases hq4 : oracle (resummarize_prompt (pyStrip s)) with
      | error e4 => simp [h1, h2, h3, hq4, hw]
      | ok r0 => simp [h1, h2, h3, hq4, hw]
    · simp [h1, h2, h3, hw]
  · intro hle
    have hw : ¬ 300 < (pyWords (pyStrip s)).length := by omega
    unfold smart_summarize
    simp [h1, h2, h3, hw]
  · intro c hgt hc4
    unfold smart_summarize
    simp [h1, h2, h3, hgt, hc4]

/-- Witness for C6_theorem: a backend that answers every call with a short
text issues exactly the three unconditional prompts and combines the
stripped results. -/
theorem C6_witness :
    ((fun _ => Except.ok " fine " : String → Except String String)
        (summary_prompt "doc") = Except.ok " fine ") ∧
    ((pyWords (pyStrip " fine ")).length ≤ 300) ∧
    ((smart_summarize (fun _ => Except.ok " fine ") "doc").2
      = [summary_prompt "doc", sentiment_prompt "doc", facts_prompt "doc"]) ∧
    ((smart_summarize (fun _ => Except.ok " fine ") "doc").1
      = some ⟨pyStrip " fine ", pyStrip " fine ", pyStrip " fine "⟩) := by
  have h0 : (fun _ => Except.ok " fine " : String → Except String String)
      (summary_prompt "doc") = Except.ok " fine " := rfl
  have hle : (pyWords (pyStrip " fine ")).length ≤ 300 := by decide
  have hc := C6_theorem (fun _ => Except.ok " fine ") "doc"
    " fine " " fine " " fine " rfl rfl rfl
  refine ⟨h0, hle, ?_, hc.2.1 hle⟩
  have htrace := hc.1
  rw [if_neg (by omega)] at htrace
  simpa using htrace
